import Mathlib

/-!
Verification development for the `pyledctrl` LED-bytecode compiler.

This file gives a shallow embedding of the parts of the repository that the
claims C1-C10 talk about:

  * the AST node model and its binary encoder
    (`src/pyledctrl/compiler/ast.py`, newer revision under `src/src/`),
  * the varuint (LEB128) codec (`to_varuint` in `src/pyledctrl/utils.py`
    and `Varuint.from_bytecode` in `ast.py`),
  * the three optimisation passes and their composite driver
    (`src/pyledctrl/compiler/optimisation.py`),
  * the reference interpreter (`src/pyledctrl/executor.py`, which exists
    only in the older revision and is imported by the newer one),
  * the compilation plan executor (`src/pyledctrl/compiler/plan.py`).

Python byte strings are modelled as `List Nat` (each entry a byte value),
unsigned integers as `Nat`, the executor's float timestamps as `ℚ`
(timestamp arithmetic in the source only ever divides integer frame counts
by the decimal constant FPS = 50, which is exact), and raised exceptions as
`Option`/`Except` results.
-/

/-- RGB color literal: three unsigned byte components (`RGBColor` in
`ast.py`; the components are `UnsignedByte` nodes whose values are in
`[0, 255]`, modelled here as plain `Nat`s). -/
structure RGBColor where
  red : Nat
  green : Nat
  blue : Nat
deriving DecidableEq, Repr

/-- Mirrors `RGBColor.is_black`: all three components are `0`. -/
def RGBColor.is_black (c : RGBColor) : Bool :=
  c.red == 0 && c.green == 0 && c.blue == 0

/-- Mirrors `RGBColor.is_gray`: the three components are equal. -/
def RGBColor.is_gray (c : RGBColor) : Bool :=
  c.red == c.green && c.green == c.blue

/-- Mirrors `RGBColor.is_white`: all three components are `255`. -/
def RGBColor.is_white (c : RGBColor) : Bool :=
  c.red == 255 && c.green == 255 && c.blue == 255

/-- The statement-level AST (`Statement` subclasses in `ast.py`).

  * durations/timestamps/addresses are the `value` of the `Duration` /
    `Varuint` literal carried by the command (a `Nat`),
  * gray values and channel indices are `UnsignedByte` values,
  * `setPyro`'s `ChannelMask` is modelled by its `enable` flag plus the
    7-bit characteristic bitmask of the `channels` frozenset (channel
    indices are validated to lie in `[0, 6]`, so frozenset equality is
    exactly bitmask equality), and `setPyroAll`'s `ChannelValues`
    likewise by its bitmask,
  * `loopBlock` is `LoopBlock` (iterations `UnsignedByte` + body
    `StatementSequence`), with the body as a `List` of statements,
  * `comment` is the `Comment` statement (string payload, zero bytes of
    bytecode). -/
inductive Stmt where
  | endCmd : Stmt
  | nop : Stmt
  | sleep (duration : Nat) : Stmt
  | waitUntil (timestamp : Nat) : Stmt
  | setColor (color : RGBColor) (duration : Nat) : Stmt
  | setGray (value : Nat) (duration : Nat) : Stmt
  | setBlack (duration : Nat) : Stmt
  | setWhite (duration : Nat) : Stmt
  | fadeToColor (color : RGBColor) (duration : Nat) : Stmt
  | fadeToGray (value : Nat) (duration : Nat) : Stmt
  | fadeToBlack (duration : Nat) : Stmt
  | fadeToWhite (duration : Nat) : Stmt
  | resetTimer : Stmt
  | setColorFromChannels (redCh greenCh blueCh : Nat) (duration : Nat) : Stmt
  | fadeToColorFromChannels (redCh greenCh blueCh : Nat) (duration : Nat) : Stmt
  | jump (address : Nat) : Stmt
  | setPyro (enable : Bool) (mask : Nat) : Stmt
  | setPyroAll (values : Nat) : Stmt
  | comment (value : String) : Stmt
  | loopBlock (iterations : Nat) (body : List Stmt) : Stmt

/-! ## Varuint codec

`to_varuint` in `src/src/pyledctrl/utils.py` and `Varuint.from_bytecode`
in `src/src/pyledctrl/compiler/ast.py`. -/

/-- `utils.to_varuint`: LEB128 encoding.  The Python function first
handles `value < 128` with a single byte, otherwise loops emitting the
low 7 bits with the continuation flag (`(value & 0x7F) + 0x80`) and
shifting by 7 (`value >>= 7`, i.e. division by 128) until the remaining
value is below 128 (final byte without the flag).  Negative input cannot
occur for a `Nat`. -/
def to_varuint (value : Nat) : List Nat :=
  if value < 128 then [value]
  else (value % 128 + 128) :: to_varuint (value / 128)
termination_by value
decreasing_by exact Nat.div_lt_self (by omega) (by omega)

/-- Outcome of a failed `Varuint.from_bytecode` call: either the stream
ended mid-varuint (`BytecodeParserEOFError`) or the decoded value was
rejected by `Varuint.__init__` / `_set_value` (`ValueError`, raised for
values `≥ 2^28`). -/
inductive VaruintError where
  | eofError : VaruintError
  | valueError : VaruintError
deriving DecidableEq, Repr

/-- The loop inside `Varuint.from_bytecode`: reads bytes, accumulating
`value |= (x & 0x7F) << shift` with `shift` growing by 7, until a byte
without the continuation bit (`x < 128`) arrives; an empty read raises
`BytecodeParserEOFError`.  After the loop, `Varuint(value)` raises
`ValueError` when the value is `≥ 2^28`.  Returns the decoded value and
the unconsumed remainder of the stream. -/
def fromBytecodeAux : List Nat → Nat → Nat → Except VaruintError (Nat × List Nat)
  | [], _, _ => .error .eofError
  | x :: rest, value, shift =>
    let value' := value ||| ((x &&& 0x7F) <<< shift)
    if x < 128 then
      if value' ≥ 2 ^ 28 then .error .valueError
      else .ok (value', rest)
    else fromBytecodeAux rest value' (shift + 7)

/-- `Varuint.from_bytecode`, on a byte list instead of a stream. -/
def Varuint.from_bytecode (data : List Nat) : Except VaruintError (Nat × List Nat) :=
  fromBytecodeAux data 0 0

/-- Disjoint-bits `or` is addition: if `a < 2^s` then
`a ||| (b <<< s) = a + b * 2^s`. -/
theorem lor_shiftLeft_eq_add (a b s : Nat) (h : a < 2 ^ s) :
    a ||| (b <<< s) = a + b * 2 ^ s := by
  rw [Nat.shiftLeft_eq, Nat.lor_comm, mul_comm b (2 ^ s),
    ← Nat.mul_add_lt_is_or h, Nat.add_comm]

/-- Generalised LEB128 round trip: decoding the encoding of `v` appended
to any remainder, with accumulator `acc < 2^shift`, yields
`acc + v * 2^shift` provided the total stays below the `2^28` cap. -/
theorem fromBytecodeAux_to_varuint (v : Nat) :
    ∀ acc shift rest, acc < 2 ^ shift → acc + v * 2 ^ shift < 2 ^ 28 →
      fromBytecodeAux (to_varuint v ++ rest) acc shift =
        .ok (acc + v * 2 ^ shift, rest) := by
  induction v using Nat.strong_induction_on with
  | _ v ih =>
    intro acc shift rest hacc hcap
    rw [to_varuint]
    by_cases hv : v < 128
    · simp only [if_pos hv, List.cons_append, fromBytecodeAux]
      have hand : v &&& 0x7F = v := by
        rw [show (0x7F : ℕ) = 2 ^ 7 - 1 by norm_num,
          Nat.and_pow_two_sub_one_eq_mod, show (2 : ℕ) ^ 7 = 128 by norm_num]
        omega
      rw [hand, lor_shiftLeft_eq_add _ _ _ hacc,
        if_neg (Nat.not_le.mpr hcap), List.nil_append]
    · simp only [if_neg hv, List.cons_append, fromBytecodeAux]
      have hge : ¬(v % 128 + 128 < 128) := by omega
      have hand : (v % 128 + 128) &&& 0x7F = v % 128 := by
        rw [show (0x7F : ℕ) = 2 ^ 7 - 1 by norm_num,
          Nat.and_pow_two_sub_one_eq_mod, show (2 : ℕ) ^ 7 = 128 by norm_num]
        omega
      rw [if_neg hge, hand, lor_shiftLeft_eq_add _ _ _ hacc]
      have hrec := ih (v / 128) (Nat.div_lt_self (by omega) (by omega))
        (acc + v % 128 * 2 ^ shift) (shift + 7) rest
      have hacc' : acc + v % 128 * 2 ^ shift < 2 ^ (shift + 7) := by
        have h1 : v % 128 * 2 ^ shift ≤ 127 * 2 ^ shift :=
          Nat.mul_le_mul_right _ (by omega)
        have h2 : 2 ^ (shift + 7) = 128 * 2 ^ shift := by ring
        omega
      have hsum : acc + v % 128 * 2 ^ shift + v / 128 * 2 ^ (shift + 7) =
          acc + v * 2 ^ shift := by
        have h1 : 2 ^ (shift + 7) = 2 ^ shift * 128 := by ring
        have h2 := Nat.mod_add_div v 128
        calc acc + v % 128 * 2 ^ shift + v / 128 * 2 ^ (shift + 7)
            = acc + (v % 128 + 128 * (v / 128)) * 2 ^ shift := by rw [h1]; ring
          _ = acc + v * 2 ^ shift := by rw [h2]
      rw [hrec hacc' (by omega), hsum]

/-- Helper derived form of the round trip starting from a fresh decoder
state. -/
theorem varuint_round_trip (v : Nat) (h : v < 2 ^ 28) :
    Varuint.from_bytecode (to_varuint v) = .ok (v, []) := by
  have := fromBytecodeAux_to_varuint v 0 0 [] (by norm_num) (by simpa using h)
  simpa [Varuint.from_bytecode] using this

/-- C6: for every `v < 2^28` decoding the varuint encoding of `v` gives
back `v` (consuming the whole encoding), and the encoding of `0` is the
single zero byte. -/
theorem C6_varuint_round_trip :
    (∀ v : Nat, v < 2 ^ 28 →
      Varuint.from_bytecode (to_varuint v) = .ok (v, [])) ∧
    to_varuint 0 = [0] := by
  refine ⟨fun v h => varuint_round_trip v h, ?_⟩
  rw [to_varuint]
  norm_num

/-- Witness for C6 at `v = 300`. -/
theorem C6_witness :
    300 < 2 ^ 28 ∧ Varuint.from_bytecode (to_varuint 300) = .ok (300, []) :=
  ⟨by norm_num, C6_varuint_round_trip.1 300 (by norm_num)⟩

/-- C7 counterexample: the two-byte sequence `80 00` is an over-long
encoding of `0` (the minimal encoding is the single byte `00`), yet the
decoder accepts it and returns `0` instead of failing with a parser
error. -/
theorem C7_counterexample :
    Varuint.from_bytecode [0x80, 0x00] = .ok (0, []) := by
  rfl

/-- Generalised EOF behaviour of the decoder loop: if every byte of the
remaining stream has the continuation bit set, the loop consumes the
whole stream and fails with `BytecodeParserEOFError`. -/
theorem fromBytecodeAux_eof (bs : List Nat) :
    ∀ acc shift, (∀ b ∈ bs, 128 ≤ b) →
      fromBytecodeAux bs acc shift = .error .eofError := by
  induction bs with
  | nil => intro _ _ _; rfl
  | cons x rest ih =>
    intro acc shift h
    have hx : ¬(x < 128) := by
      have := h x (by simp)
      omega
    simp only [fromBytecodeAux, if_neg hx]
    exact ih _ _ fun b hb => h b (by simp [hb])

/-- C7 (amended): decoding fails with `BytecodeParserEOFError` for every
input stream that ends in the middle of a varuint (all bytes read so far
carry the continuation bit); over-long encodings, however, are accepted
rather than rejected (see `C7_counterexample`). -/
theorem C7_eof_on_truncated_stream (bs : List Nat) (h : ∀ b ∈ bs, 128 ≤ b) :
    Varuint.from_bytecode bs = .error .eofError :=
  fromBytecodeAux_eof bs 0 0 h

/-- Witness for C7 at the one-byte truncated stream `80`. -/
theorem C7_witness :
    (∀ b ∈ [0x80], 128 ≤ b) ∧
      Varuint.from_bytecode [0x80] = .error .eofError :=
  ⟨by decide, C7_eof_on_truncated_stream [0x80] (by decide)⟩

/-! ## Binary encoder and encoded length

`Node.to_bytecode` / `Node.length_in_bytes` and their per-class overrides
in `src/src/pyledctrl/compiler/ast.py`.  A `Command` encodes as its opcode
byte followed by the encodings of its fields in declaration order, and its
`length_in_bytes` is `1` plus the field lengths (`UnsignedByte`: 1 byte,
`RGBColor`: 3 bytes, `Varuint`/`Duration`: length of its LEB128 form). -/

/-- `ChannelMask._to_byte`: low seven bits of the channel bitmask plus
`128` when the enable flag is set. -/
def channelMaskToByte (enable : Bool) (mask : Nat) : Nat :=
  (mask &&& 127) + (if enable then 128 else 0)

/-- `ChannelValues._to_byte`: low seven bits of the values bitmask. -/
def channelValuesToByte (values : Nat) : Nat :=
  values &&& 127

mutual

/-- `Node.to_bytecode` for statements.  The `loopBlock` case mirrors
`LoopBlock.to_bytecode` exactly, including the dead `iterations.value < 0`
guard (an `UnsignedByte` value is never negative): with a non-empty body,
one iteration encodes the bare body and anything else (including zero
iterations) encodes `LOOP_BEGIN, iterations, body…, LOOP_END`. -/
def Stmt.to_bytecode : Stmt → List Nat
  | .endCmd => [0x00]
  | .nop => [0x01]
  | .sleep d => 0x02 :: to_varuint d
  | .waitUntil t => 0x03 :: to_varuint t
  | .setColor c d => 0x04 :: c.red :: c.green :: c.blue :: to_varuint d
  | .setGray v d => 0x05 :: v :: to_varuint d
  | .setBlack d => 0x06 :: to_varuint d
  | .setWhite d => 0x07 :: to_varuint d
  | .fadeToColor c d => 0x08 :: c.red :: c.green :: c.blue :: to_varuint d
  | .fadeToGray v d => 0x09 :: v :: to_varuint d
  | .fadeToBlack d => 0x0A :: to_varuint d
  | .fadeToWhite d => 0x0B :: to_varuint d
  | .resetTimer => [0x0E]
  | .setColorFromChannels r g b d => 0x10 :: r :: g :: b :: to_varuint d
  | .fadeToColorFromChannels r g b d => 0x11 :: r :: g :: b :: to_varuint d
  | .jump a => 0x12 :: to_varuint a
  | .setPyro enable mask => [0x14, channelMaskToByte enable mask]
  | .setPyroAll values => [0x15, channelValuesToByte values]
  | .comment _ => []
  | .loopBlock n body =>
    if body.isEmpty || decide (n < 0) then []
    else if n == 1 then seq_to_bytecode body
    else 0x0C :: n :: seq_to_bytecode body ++ [0x0D]

/-- `StatementSequence.to_bytecode`: concatenation of the statements'
bytecode. -/
def seq_to_bytecode : List Stmt → List Nat
  | [] => []
  | s :: rest => s.to_bytecode ++ seq_to_bytecode rest

end

mutual

/-- `Node.length_in_bytes` for statements.  The `loopBlock` case mirrors
`LoopBlock.length_in_bytes`, whose guard is `iterations.value <= 0`
(unlike `to_bytecode`'s `< 0`): zero iterations or an empty body report
length `0`; otherwise the body length, plus `2 + 1` for
`LOOP_BEGIN`/`LOOP_END` and the iterations byte when iterations is not
one. -/
def Stmt.length_in_bytes : Stmt → Nat
  | .endCmd => 1
  | .nop => 1
  | .sleep d => 1 + (to_varuint d).length
  | .waitUntil t => 1 + (to_varuint t).length
  | .setColor _ d => 1 + 3 + (to_varuint d).length
  | .setGray _ d => 1 + 1 + (to_varuint d).length
  | .setBlack d => 1 + (to_varuint d).length
  | .setWhite d => 1 + (to_varuint d).length
  | .fadeToColor _ d => 1 + 3 + (to_varuint d).length
  | .fadeToGray _ d => 1 + 1 + (to_varuint d).length
  | .fadeToBlack d => 1 + (to_varuint d).length
  | .fadeToWhite d => 1 + (to_varuint d).length
  | .resetTimer => 1
  | .setColorFromChannels _ _ _ d => 1 + 3 + (to_varuint d).length
  | .fadeToColorFromChannels _ _ _ d => 1 + 3 + (to_varuint d).length
  | .jump a => 1 + (to_varuint a).length
  | .setPyro _ _ => 1 + 1
  | .setPyroAll _ => 1 + 1
  | .comment _ => 0
  | .loopBlock n body =>
    if body.isEmpty || decide (n ≤ 0) then 0
    else if n == 1 then seq_length_in_bytes body
    else seq_length_in_bytes body + 2 + 1

/-- `StatementSequence.length_in_bytes`: sum over the statements. -/
def seq_length_in_bytes : List Stmt → Nat
  | [] => 0
  | s :: rest => s.length_in_bytes + seq_length_in_bytes rest

end

/-- C1 (code bug): a `LoopBlock` with zero iterations and a non-empty
body reports `length_in_bytes = 0` (its guard is `iterations.value <= 0`)
while `to_bytecode` emits four bytes `0C 00 01 0D` (its guard is the
never-true `iterations.value < 0`), so the reported length does not match
the emitted byte count. -/
theorem C1_length_mismatch_loop_zero :
    Stmt.length_in_bytes (.loopBlock 0 [.nop]) = 0 ∧
    Stmt.to_bytecode (.loopBlock 0 [.nop]) = [0x0C, 0x00, 0x01, 0x0D] ∧
    (Stmt.to_bytecode (.loopBlock 0 [.nop])).length ≠
      Stmt.length_in_bytes (.loopBlock 0 [.nop]) := by
  refine ⟨rfl, rfl, ?_⟩
  intro h
  simp [Stmt.to_bytecode, Stmt.length_in_bytes, seq_to_bytecode,
    Stmt.length_in_bytes] at h

/-- C3 (code bug): `LoopBlock.to_bytecode` handles an empty body, one
iteration, and two or more iterations as claimed, but a zero-iteration
loop with a non-empty body encodes as `LOOP_BEGIN 00 body LOOP_END`
instead of the claimed empty byte string, because the guard tests
`iterations.value < 0` (never true for an `UnsignedByte`) instead of
`== 0`. -/
theorem C3_loop_encoding_cases :
    Stmt.to_bytecode (.loopBlock 0 [.endCmd]) = [0x0C, 0x00, 0x00, 0x0D] ∧
    Stmt.to_bytecode (.loopBlock 0 [.endCmd]) ≠ [] ∧
    Stmt.to_bytecode (.loopBlock 1 [.endCmd]) = [0x00] ∧
    Stmt.to_bytecode (.loopBlock 2 [.endCmd]) = [0x0C, 0x02, 0x00, 0x0D] ∧
    Stmt.to_bytecode (.loopBlock 255 [.endCmd]) = [0x0C, 0xFF, 0x00, 0x0D] ∧
    Stmt.to_bytecode (.loopBlock 0 []) = [] ∧
    Stmt.to_bytecode (.loopBlock 7 []) = [] := by
  refine ⟨rfl, ?_, rfl, rfl, rfl, rfl, rfl⟩
  intro h
  simp [Stmt.to_bytecode, seq_to_bytecode] at h

/-! ## Semantic equivalence of statements

`Statement.is_equivalent_to`: two statements are equivalent when they have
exactly the same class and `_is_equivalent_to_inner` holds.  Classes with
an override compare their literal fields by value; the default
implementation compares the statements' bytecode. -/

/-- Class tag of a statement (`self.__class__ is other.__class__`). -/
def Stmt.tag : Stmt → Nat
  | .endCmd => 0
  | .nop => 1
  | .sleep _ => 2
  | .waitUntil _ => 3
  | .setColor _ _ => 4
  | .setGray _ _ => 5
  | .setBlack _ => 6
  | .setWhite _ => 7
  | .fadeToColor _ _ => 8
  | .fadeToGray _ _ => 9
  | .fadeToBlack _ => 10
  | .fadeToWhite _ => 11
  | .resetTimer => 12
  | .setColorFromChannels _ _ _ _ => 13
  | .fadeToColorFromChannels _ _ _ _ => 14
  | .jump _ => 15
  | .setPyro _ _ => 16
  | .setPyroAll _ => 17
  | .comment _ => 18
  | .loopBlock _ _ => 19

/-- `Statement.is_equivalent_to`.  The classes listed first override
`_is_equivalent_to_inner` with field-by-field `equals` comparisons
(`RGBColor.equals` / `UnsignedByte.equals` / `Varuint.equals` compare
values; `ChannelMask.equals` / `ChannelValues.equals` compare the enable
flag and the channel sets).  Every other class (`EndCommand`,
`NopCommand`, `SleepCommand`, `WaitUntilCommand`, `ResetTimerCommand`,
the channel commands, `JumpCommand`, `Comment`, `LoopBlock`) falls back
to `Statement._is_equivalent_to_inner`, which compares the two
statements' bytecode. -/
def isEquivalentTo (a b : Stmt) : Bool :=
  match a, b with
  | .setColor c1 d1, .setColor c2 d2 => c1 == c2 && d1 == d2
  | .setGray v1 d1, .setGray v2 d2 => v1 == v2 && d1 == d2
  | .setBlack d1, .setBlack d2 => d1 == d2
  | .setWhite d1, .setWhite d2 => d1 == d2
  | .fadeToColor c1 d1, .fadeToColor c2 d2 => c1 == c2 && d1 == d2
  | .fadeToGray v1 d1, .fadeToGray v2 d2 => v1 == v2 && d1 == d2
  | .fadeToBlack d1, .fadeToBlack d2 => d1 == d2
  | .fadeToWhite d1, .fadeToWhite d2 => d1 == d2
  | .setPyro e1 m1, .setPyro e2 m2 => e1 == e2 && m1 == m2
  | .setPyroAll m1, .setPyroAll m2 => m1 == m2
  | a, b => a.tag == b.tag && a.to_bytecode == b.to_bytecode

/-! ## ColorCommandShortener

`ColorCommandShortener.Transformer` in
`src/src/pyledctrl/compiler/optimisation.py`.  Its `visit_SetColorCommand`
and `visit_FadeToColorCommand` methods test `node.color.is_white` /
`is_black` / `is_gray` (in that order) and replace the command; the
transformer reaches every statement of the tree, including loop bodies,
through `generic_visit`. -/

/-- In `visit_SetGrayCommand` and `visit_FadeToGrayCommand` the source
compares `node.value == 255` and `node.value == 0`.  `node.value` is the
`UnsignedByte` literal node itself (the metaclass-generated getter
returns the wrapped literal), and `UnsignedByte` defines no `__eq__`, so
Python falls back to identity comparison between an `UnsignedByte` object
and an `int` — which is always `False`.  This function models that
comparison. -/
def unsignedByteEqInt (_value : Nat) (_literal : Nat) : Bool :=
  false

mutual

/-- One `ColorCommandShortener` rewrite step on a single statement,
recursing into loop bodies exactly as `generic_visit` does.  Statements
other than the four visited classes are left unchanged. -/
def shortenStmt : Stmt → Stmt
  | .setColor c d =>
    if c.is_white then .setWhite d
    else if c.is_black then .setBlack d
    else if c.is_gray then .setGray c.red d
    else .setColor c d
  | .setGray v d =>
    if unsignedByteEqInt v 255 then .setWhite d
    else if unsignedByteEqInt v 0 then .setBlack d
    else .setGray v d
  | .fadeToColor c d =>
    if c.is_white then .fadeToWhite d
    else if c.is_black then .fadeToBlack d
    else if c.is_gray then .fadeToGray c.red d
    else .fadeToColor c d
  | .fadeToGray v d =>
    if unsignedByteEqInt v 255 then .fadeToWhite d
    else if unsignedByteEqInt v 0 then .fadeToBlack d
    else .fadeToGray v d
  | .loopBlock n body => .loopBlock n (shorten_seq body)
  | s => s

/-- The shortener applied to every statement of a sequence. -/
def shorten_seq : List Stmt → List Stmt
  | [] => []
  | s :: rest => shortenStmt s :: shorten_seq rest

end

/-- C4 (code bug): the `set_color`/`fade_to_color` rewrites of the
`ColorCommandShortener` behave as claimed, but the `set_gray` and
`fade_to_gray` rewrites never fire: `visit_SetGrayCommand` and
`visit_FadeToGrayCommand` compare the `UnsignedByte` node `node.value`
with the ints `255`/`0` using `==`, which is always `False` for an
object without `__eq__`, so `set_gray(255, d)` is not rewritten to
`set_white(d)` (and likewise for the other gray rewrites). -/
theorem C4_gray_shortening_never_fires :
    shortenStmt (.setGray 255 7) = .setGray 255 7 ∧
    shortenStmt (.setGray 0 7) = .setGray 0 7 ∧
    shortenStmt (.fadeToGray 255 7) = .fadeToGray 255 7 ∧
    shortenStmt (.fadeToGray 0 7) = .fadeToGray 0 7 ∧
    shortenStmt (.setColor ⟨0, 0, 0⟩ 7) = .setBlack 7 ∧
    shortenStmt (.setColor ⟨255, 255, 255⟩ 7) = .setWhite 7 ∧
    shortenStmt (.setColor ⟨9, 9, 9⟩ 7) = .setGray 9 7 ∧
    shortenStmt (.fadeToColor ⟨9, 9, 9⟩ 7) = .fadeToGray 9 7 :=
  ⟨rfl, rfl, rfl, rfl, rfl, rfl, rfl, rfl⟩

/-! ## CommandMerger

`CommandMerger.Transformer` in `src/src/pyledctrl/compiler/optimisation.py`.
Its `visit_StatementSequence` walks the statement list with an index; at a
`SetColorCommand`, `FadeToColorCommand` or `SleepCommand` it scans forward
and replaces the scanned run in place, then continues after the
replacement.  Merged durations are wrapped in `Duration(value=Σ)`, whose
`_set_value` raises `ValueError` when the sum reaches `2^28`; this is
modelled by an `Option` result (`none` = exception). -/

/-- The scan condition shared by `_handle_set_color_command` and
`_handle_fade_to_color_command`: a `SetColorCommand` or
`FadeToColorCommand` whose color `equals` the run's color, or any
`SleepCommand`. -/
def colorRunMember (c : RGBColor) : Stmt → Bool
  | .setColor c' _ => c' == c
  | .fadeToColor c' _ => c' == c
  | .sleep _ => true
  | _ => false

/-- The duration a scanned statement contributes
(`statement.duration.value`). -/
def runDuration : Stmt → Nat
  | .setColor _ d => d
  | .fadeToColor _ d => d
  | .sleep d => d
  | _ => 0

/-- The scanning loop of the two color handlers: accumulates
`(duration, length)` over the longest prefix of `colorRunMember`
statements. -/
def scanColorRun (c : RGBColor) : List Stmt → Nat × Nat
  | [] => (0, 0)
  | s :: rest =>
    if colorRunMember c s then
      (runDuration s + (scanColorRun c rest).1, (scanColorRun c rest).2 + 1)
    else (0, 0)

/-- Scan condition of `_handle_sleep_command`: a `SleepCommand`. -/
def isSleepStmt : Stmt → Bool
  | .sleep _ => true
  | _ => false

/-- The scanning loop of `_handle_sleep_command`. -/
def scanSleepRun : List Stmt → Nat × Nat
  | [] => (0, 0)
  | s :: rest =>
    if isSleepStmt s then
      (runDuration s + (scanSleepRun rest).1, (scanSleepRun rest).2 + 1)
    else (0, 0)

/-- One application of `CommandMerger.Transformer.visit_StatementSequence`
to a statement list.

  * At a `set_color`, the handler scans the run starting at the command
    itself; when more than one statement was scanned the run is replaced
    by a single `set_color` carrying the summed duration and the walk
    continues after the replacement.
  * At a `fade_to_color`, the handler scans from the *next* statement
    (the Python loop starts with `length = 1`); when the total run is
    longer than one statement it is replaced by the original fade plus a
    `sleep` carrying the sum of the *remaining* durations.
  * At a `sleep`, a run of sleeps collapses to a single summed `sleep`.
  * Anything else is kept and the walk moves one step right.

`none` models the `ValueError` raised by `Duration(value=Σ)` when a
merged sum reaches `2^28`. -/
def mergePass : List Stmt → Option (List Stmt)
  | [] => some []
  | .setColor c d :: rest =>
    if h : 1 < (scanColorRun c (Stmt.setColor c d :: rest)).2 then
      if (scanColorRun c (Stmt.setColor c d :: rest)).1 < 2 ^ 28 then
        (mergePass ((Stmt.setColor c d :: rest).drop
            (scanColorRun c (Stmt.setColor c d :: rest)).2)).map
          (Stmt.setColor c (scanColorRun c (Stmt.setColor c d :: rest)).1 :: ·)
      else none
    else (mergePass rest).map (Stmt.setColor c d :: ·)
  | .fadeToColor c d :: rest =>
    if h : 0 < (scanColorRun c rest).2 then
      if (scanColorRun c rest).1 < 2 ^ 28 then
        (mergePass (rest.drop (scanColorRun c rest).2)).map
          (fun t => Stmt.fadeToColor c d :: Stmt.sleep (scanColorRun c rest).1 :: t)
      else none
    else (mergePass rest).map (Stmt.fadeToColor c d :: ·)
  | .sleep d :: rest =>
    if h : 1 < (scanSleepRun (Stmt.sleep d :: rest)).2 then
      if (scanSleepRun (Stmt.sleep d :: rest)).1 < 2 ^ 28 then
        (mergePass ((Stmt.sleep d :: rest).drop
            (scanSleepRun (Stmt.sleep d :: rest)).2)).map
          (Stmt.sleep (scanSleepRun (Stmt.sleep d :: rest)).1 :: ·)
      else none
    else (mergePass rest).map (Stmt.sleep d :: ·)
  | s :: rest => (mergePass rest).map (s :: ·)
termination_by l => l.length
decreasing_by
  all_goals simp only [List.length_drop, List.length_cons]
  all_goals omega

mutual

/-- Duration contributed by one statement to the total duration of a
sequence: the carried duration for the clock-advancing color/sleep
commands, `iterations` times the body total for a loop block, zero for
everything else. -/
def stmtDuration : Stmt → Nat
  | .sleep d => d
  | .setColor _ d => d
  | .setGray _ d => d
  | .setBlack d => d
  | .setWhite d => d
  | .fadeToColor _ d => d
  | .fadeToGray _ d => d
  | .fadeToBlack d => d
  | .fadeToWhite d => d
  | .setColorFromChannels _ _ _ d => d
  | .fadeToColorFromChannels _ _ _ d => d
  | .loopBlock n body => n * seqDuration body
  | _ => 0

/-- Total duration of a statement sequence. -/
def seqDuration : List Stmt → Nat
  | [] => 0
  | s :: rest => stmtDuration s + seqDuration rest

end

/-- The merger's scan computes the duration sum and length of the longest
prefix of matching statements. -/
theorem scanColorRun_eq (c : RGBColor) (l : List Stmt) :
    scanColorRun c l =
      (((l.takeWhile (colorRunMember c)).map runDuration).sum,
        (l.takeWhile (colorRunMember c)).length) := by
  induction l with
  | nil => rfl
  | cons s rest ih =>
    by_cases hs : colorRunMember c s
    · simp [scanColorRun, hs, List.takeWhile_cons, ih]
    · simp [scanColorRun, hs, List.takeWhile_cons]

/-- Same as `scanColorRun_eq` for the sleep-run scan. -/
theorem scanSleepRun_eq (l : List Stmt) :
    scanSleepRun l =
      (((l.takeWhile isSleepStmt).map runDuration).sum,
        (l.takeWhile isSleepStmt).length) := by
  induction l with
  | nil => rfl
  | cons s rest ih =>
    by_cases hs : isSleepStmt s
    · simp [scanSleepRun, hs, List.takeWhile_cons, ih]
    · simp [scanSleepRun, hs, List.takeWhile_cons]

/-- Dropping as many statements as the matching prefix is long leaves
exactly the part after the maximal run. -/
theorem drop_takeWhile_length {α : Type} (p : α → Bool) (l : List α) :
    l.drop (l.takeWhile p).length = l.dropWhile p := by
  induction l with
  | nil => rfl
  | cons s rest ih =>
    by_cases hs : p s
    · simp [List.takeWhile_cons, List.dropWhile_cons, hs, ih]
    · simp [List.takeWhile_cons, List.dropWhile_cons, hs]

/-- `seqDuration` is additive over concatenation. -/
theorem seqDuration_append (a b : List Stmt) :
    seqDuration (a ++ b) = seqDuration a + seqDuration b := by
  induction a with
  | nil => simp [seqDuration]
  | cons s rest ih => simp [seqDuration, ih]; omega

/-- On a list whose members all contribute their carried duration, the
total duration is the sum of the carried durations. -/
theorem seqDuration_eq_sum (l : List Stmt)
    (h : ∀ s ∈ l, stmtDuration s = runDuration s) :
    seqDuration l = (l.map runDuration).sum := by
  induction l with
  | nil => rfl
  | cons s rest ih =>
    simp only [seqDuration, List.map_cons, List.sum_cons,
      h s (by simp), ih fun x hx => h x (by simp [hx])]

/-- A color-run member contributes exactly its carried duration. -/
theorem stmtDuration_of_colorRunMember (c : RGBColor) (s : Stmt)
    (h : colorRunMember c s = true) : stmtDuration s = runDuration s := by
  cases s <;> simp_all [colorRunMember, stmtDuration, runDuration]

/-- A sleep contributes exactly its carried duration. -/
theorem stmtDuration_of_isSleepStmt (s : Stmt)
    (h : isSleepStmt s = true) : stmtDuration s = runDuration s := by
  cases s <;> simp_all [isSleepStmt, stmtDuration, runDuration]

/-- Duration of the matching prefix, as `seqDuration`. -/
theorem seqDuration_takeWhile_colorRun (c : RGBColor) (l : List Stmt) :
    seqDuration (l.takeWhile (colorRunMember c)) =
      ((l.takeWhile (colorRunMember c)).map runDuration).sum :=
  seqDuration_eq_sum _ fun s hs =>
    stmtDuration_of_colorRunMember c s (List.mem_takeWhile_imp hs)

/-- Duration of the sleep prefix, as `seqDuration`. -/
theorem seqDuration_takeWhile_sleep (l : List Stmt) :
    seqDuration (l.takeWhile isSleepStmt) =
      ((l.takeWhile isSleepStmt).map runDuration).sum :=
  seqDuration_eq_sum _ fun s hs =>
    stmtDuration_of_isSleepStmt s (List.mem_takeWhile_imp hs)

/-- Unfolding of the merger at the head of a maximal `set_color` run: the
whole run (the longest prefix of same-color `set_color`/`fade_to_color`
and `sleep` commands) is replaced by one `set_color` with the summed
duration, and the pass continues after the run. -/
theorem mergePass_setColor_run (c : RGBColor) (d : Nat) (rest : List Stmt)
    (hrun : 1 < ((Stmt.setColor c d :: rest).takeWhile (colorRunMember c)).length)
    (hcap : (((Stmt.setColor c d :: rest).takeWhile (colorRunMember c)).map
      runDuration).sum < 2 ^ 28) :
    mergePass (Stmt.setColor c d :: rest) =
      (mergePass ((Stmt.setColor c d :: rest).dropWhile (colorRunMember c))).map
        (Stmt.setColor c
          (((Stmt.setColor c d :: rest).takeWhile (colorRunMember c)).map
            runDuration).sum :: ·) := by
  simp only [mergePass, scanColorRun_eq]
  rw [dif_pos hrun, if_pos hcap, drop_takeWhile_length]

/-- Unfolding of the merger at the head of a maximal `sleep` run: the run
collapses to a single `sleep` with the summed duration. -/
theorem mergePass_sleep_run (d : Nat) (rest : List Stmt)
    (hrun : 1 < ((Stmt.sleep d :: rest).takeWhile isSleepStmt).length)
    (hcap : (((Stmt.sleep d :: rest).takeWhile isSleepStmt).map
      runDuration).sum < 2 ^ 28) :
    mergePass (Stmt.sleep d :: rest) =
      (mergePass ((Stmt.sleep d :: rest).dropWhile isSleepStmt)).map
        (Stmt.sleep
          (((Stmt.sleep d :: rest).takeWhile isSleepStmt).map
            runDuration).sum :: ·) := by
  simp only [mergePass, scanSleepRun_eq]
  rw [dif_pos hrun, if_pos hcap, drop_takeWhile_length]

/-- The merger never changes the total duration of the sequence. -/
theorem mergePass_preserves_duration :
    ∀ l res, mergePass l = some res → seqDuration res = seqDuration l := by
  intro l
  induction l using mergePass.induct with
  | case1 =>
    intro res hres
    simp only [mergePass, Option.some.injEq] at hres
    subst hres
    rfl
  | case2 c d rest h hcap ih =>
    intro res hres
    simp only [mergePass, dif_pos h, if_pos hcap] at hres
    rw [scanColorRun_eq] at hres
    dsimp only at hres
    rw [drop_takeWhile_length] at hres
    rw [scanColorRun_eq] at ih
    dsimp only at ih
    rw [drop_takeWhile_length] at ih
    obtain ⟨t, ht, rfl⟩ := Option.map_eq_some'.mp hres
    have hih := ih t ht
    have hsplit := congrArg seqDuration
      (List.takeWhile_append_dropWhile (p := colorRunMember c)
        (l := Stmt.setColor c d :: rest))
    rw [seqDuration_append] at hsplit
    have hdur := seqDuration_takeWhile_colorRun c (Stmt.setColor c d :: rest)
    simp only [seqDuration, stmtDuration] at hsplit hdur hih ⊢
    omega
  | case3 c d rest h hcap =>
    intro res hres
    simp only [mergePass, dif_pos h, if_neg hcap] at hres
    exact absurd hres (by simp)
  | case4 c d rest h ih =>
    intro res hres
    simp only [mergePass, dif_neg h] at hres
    obtain ⟨t, ht, rfl⟩ := Option.map_eq_some'.mp hres
    have hih := ih t ht
    simp only [seqDuration] at hih ⊢
    omega
  | case5 c d rest h hcap ih =>
    intro res hres
    simp only [mergePass, dif_pos h, if_pos hcap] at hres
    rw [scanColorRun_eq] at hres
    dsimp only at hres
    rw [drop_takeWhile_length] at hres
    rw [scanColorRun_eq] at ih
    dsimp only at ih
    rw [drop_takeWhile_length] at ih
    obtain ⟨t, ht, rfl⟩ := Option.map_eq_some'.mp hres
    have hih := ih t ht
    have hsplit := congrArg seqDuration
      (List.takeWhile_append_dropWhile (p := colorRunMember c) (l := rest))
    rw [seqDuration_append] at hsplit
    have hdur := seqDuration_takeWhile_colorRun c rest
    simp only [seqDuration, stmtDuration] at hsplit hdur hih ⊢
    omega
  | case6 c d rest h hcap =>
    intro res hres
    simp only [mergePass, dif_pos h, if_neg hcap] at hres
    exact absurd hres (by simp)
  | case7 c d rest h ih =>
    intro res hres
    simp only [mergePass, dif_neg h] at hres
    obtain ⟨t, ht, rfl⟩ := Option.map_eq_some'.mp hres
    have hih := ih t ht
    simp only [seqDuration] at hih ⊢
    omega
  | case8 d rest h hcap ih =>
    intro res hres
    simp only [mergePass, dif_pos h, if_pos hcap] at hres
    rw [scanSleepRun_eq] at hres
    dsimp only at hres
    rw [drop_takeWhile_length] at hres
    rw [scanSleepRun_eq] at ih
    dsimp only at ih
    rw [drop_takeWhile_length] at ih
    obtain ⟨t, ht, rfl⟩ := Option.map_eq_some'.mp hres
    have hih := ih t ht
    have hsplit := congrArg seqDuration
      (List.takeWhile_append_dropWhile (p := isSleepStmt)
        (l := Stmt.sleep d :: rest))
    rw [seqDuration_append] at hsplit
    have hdur := seqDuration_takeWhile_sleep (Stmt.sleep d :: rest)
    simp only [seqDuration, stmtDuration] at hsplit hdur hih ⊢
    omega
  | case9 d rest h hcap =>
    intro res hres
    simp only [mergePass, dif_pos h, if_neg hcap] at hres
    exact absurd hres (by simp)
  | case10 d rest h ih =>
    intro res hres
    simp only [mergePass, dif_neg h] at hres
    obtain ⟨t, ht, rfl⟩ := Option.map_eq_some'.mp hres
    have hih := ih t ht
    simp only [seqDuration] at hih ⊢
    omega
  | case11 s rest h1 h2 h3 ih =>
    intro res hres
    have heq : mergePass (s :: rest) = (mergePass rest).map (s :: ·) := by
      cases s
      case setColor c d => exact (h1 c d rfl).elim
      case fadeToColor c d => exact (h2 c d rfl).elim
      case sleep d => exact (h3 d rfl).elim
      all_goals simp only [mergePass]
    rw [heq] at hres
    obtain ⟨t, ht, rfl⟩ := Option.map_eq_some'.mp hres
    have hih := ih t ht
    simp only [seqDuration] at hih ⊢
    omega

/-- C9 (amended): provided the summed durations stay below the `2^28`
varuint cap, one application of `CommandMerger` (i) preserves the total
duration of the sequence whenever it completes, (ii) collapses a maximal
run of `set_color`/`fade_to_color`/`sleep` commands that starts with
`set_color(c, ·)` and whose colored members all carry exactly the color
`c` into the single command `set_color(c, Σ durations)` and continues
after the run, and (iii) collapses a maximal run of `sleep` commands into
one `sleep(Σ durations)`.  Without the cap proviso the pass instead
raises `ValueError` (see `C9_counterexample_overflow`). -/
theorem C9_merger_collapses_runs :
    (∀ l res, mergePass l = some res → seqDuration res = seqDuration l) ∧
    (∀ (c : RGBColor) (d : Nat) (rest : List Stmt),
      1 < ((Stmt.setColor c d :: rest).takeWhile (colorRunMember c)).length →
      (((Stmt.setColor c d :: rest).takeWhile (colorRunMember c)).map
        runDuration).sum < 2 ^ 28 →
      mergePass (Stmt.setColor c d :: rest) =
        (mergePass ((Stmt.setColor c d :: rest).dropWhile
            (colorRunMember c))).map
          (Stmt.setColor c
            (((Stmt.setColor c d :: rest).takeWhile (colorRunMember c)).map
              runDuration).sum :: ·)) ∧
    (∀ (d : Nat) (rest : List Stmt),
      1 < ((Stmt.sleep d :: rest).takeWhile isSleepStmt).length →
      (((Stmt.sleep d :: rest).takeWhile isSleepStmt).map
        runDuration).sum < 2 ^ 28 →
      mergePass (Stmt.sleep d :: rest) =
        (mergePass ((Stmt.sleep d :: rest).dropWhile isSleepStmt)).map
          (Stmt.sleep
            (((Stmt.sleep d :: rest).takeWhile isSleepStmt).map
              runDuration).sum :: ·)) :=
  ⟨mergePass_preserves_duration,
    fun c d rest h1 h2 => mergePass_setColor_run c d rest h1 h2,
    fun d rest h1 h2 => mergePass_sleep_run d rest h1 h2⟩

/-- C9 counterexample: two same-color `set_color` commands whose
durations sum to `2^28` are not collapsed as the claim demands; the pass
raises `ValueError` when building `Duration(value=2^28)` (modelled as
`none`). -/
theorem C9_counterexample_overflow :
    mergePass [Stmt.setColor ⟨1, 2, 3⟩ (2 ^ 28 - 1),
      Stmt.setColor ⟨1, 2, 3⟩ 1] = none := by
  have hscan : scanColorRun ⟨1, 2, 3⟩ [Stmt.setColor ⟨1, 2, 3⟩ (2 ^ 28 - 1),
      Stmt.setColor ⟨1, 2, 3⟩ 1] = (2 ^ 28, 2) := by
    norm_num [scanColorRun, colorRunMember, runDuration]
  simp only [mergePass, hscan]
  norm_num

/-- Witness for C9 on the run `set_color((1,2,3), 3); set_color((1,2,3), 4)`. -/
theorem C9_witness :
    1 < (([Stmt.setColor ⟨1, 2, 3⟩ 3, Stmt.setColor ⟨1, 2, 3⟩ 4].takeWhile
      (colorRunMember ⟨1, 2, 3⟩)).length) ∧
    (([Stmt.setColor ⟨1, 2, 3⟩ 3, Stmt.setColor ⟨1, 2, 3⟩ 4].takeWhile
      (colorRunMember ⟨1, 2, 3⟩)).map runDuration).sum < 2 ^ 28 ∧
    mergePass [Stmt.setColor ⟨1, 2, 3⟩ 3, Stmt.setColor ⟨1, 2, 3⟩ 4] =
      (mergePass ([Stmt.setColor ⟨1, 2, 3⟩ 3,
          Stmt.setColor ⟨1, 2, 3⟩ 4].dropWhile
          (colorRunMember ⟨1, 2, 3⟩))).map
        (Stmt.setColor ⟨1, 2, 3⟩
          (([Stmt.setColor ⟨1, 2, 3⟩ 3, Stmt.setColor ⟨1, 2, 3⟩ 4].takeWhile
            (colorRunMember ⟨1, 2, 3⟩)).map runDuration).sum :: ·) :=
  ⟨by decide, by decide,
    C9_merger_collapses_runs.2.1 ⟨1, 2, 3⟩ 3 [Stmt.setColor ⟨1, 2, 3⟩ 4]
      (by decide) (by decide)⟩

/-! ## LoopDetector

`LoopDetector.Transformer` in `src/src/pyledctrl/compiler/optimisation.py`.
`visit_StatementSequence` walks the statement list with an index; at each
position it collects the potential loops whose body ends at
`end ∈ range(index+1, min(num_statements, index + max_loop_len))`, i.e.
whose body length `k = end - index` satisfies `1 ≤ k ≤ max_loop_len - 1`,
keeps those with more than one iteration, replaces the run with the
`LoopBlock` of smallest `length_in_bytes` (Python's `min` keeps the first
minimum, i.e. the smallest `k` on ties) and continues after the
replacement.  The functions below work on the suffix starting at the
current index, so the index argument of the Python helpers becomes `0`. -/

/-- `LoopDetector.Transformer.max_loop_len` (set in `__init__`). -/
def maxLoopLen : Nat := 8

/-- The `while` loop of `_identify_loop_iteration_count`: advances
`first` and `second` while `second` is in range and the statements at
`first` and `second` are equivalent; returns the final `second`.  (The
`getD` default is never used: the loop only reads positions below the
list length.) -/
def identifyAux (statements : List Stmt) (first second : Nat) : Nat :=
  if h : second < statements.length ∧
      isEquivalentTo (statements.getD first Stmt.nop)
        (statements.getD second Stmt.nop) = true then
    identifyAux statements (first + 1) (second + 1)
  else second
termination_by statements.length - second
decreasing_by omega

/-- `_identify_loop_iteration_count`: the number of consecutive
repetitions of the block of `loop_body_length` statements starting at
`start_index`, capped at 255. -/
def identifyLoopIterationCount (statements : List Stmt)
    (start_index loop_body_length : Nat) : Nat :=
  min ((identifyAux statements start_index (start_index + loop_body_length)
      - start_index) / loop_body_length) 255

/-- The `potential_loops` list collected by `visit_StatementSequence` at
one starting position, for the suffix `body` beginning there: the pairs
`(k, iterations)` for each candidate body length
`k ∈ range(1, min(len(body), max_loop_len))` whose statement at `k` is
equivalent to the one at `0` and whose iteration count exceeds one.
(The Python code stores `(end, iterations)` with `end = index + k`; on
the suffix this is just `k`.) -/
def potentialLoops (body : List Stmt) : List (Nat × Nat) :=
  (List.range' 1 (min body.length maxLoopLen - 1)).filterMap fun k =>
    if isEquivalentTo (body.getD 0 Stmt.nop) (body.getD k Stmt.nop) then
      if 1 < identifyLoopIterationCount body 0 k then
        some (k, identifyLoopIterationCount body 0 k)
      else none
    else none

/-- Python's `min(blocks, key=...)`: fold keeping the current best and
replacing it only on a strictly smaller key, so the first minimum wins. -/
def chooseMinBy {α : Type} (key : α → Nat) (x : α) (l : List α) : α :=
  l.foldl (fun best b => if key b < key best then b else best) x

/-- `chooseMinBy` computes exactly `List.argmin` on the nonempty list. -/
theorem argmin_eq_chooseMinBy {α : Type} (key : α → Nat) (l : List α)
    (x : α) : (x :: l).argmin key = some (chooseMinBy key x l) := by
  suffices h : ∀ (l : List α) (x : α),
      l.foldl (List.argAux fun b c => key b < key c) (some x) =
        some (chooseMinBy key x l) by
    simpa [List.argmin, List.argAux] using h l x
  intro l
  induction l with
  | nil => intro x; rfl
  | cons b bs ih =>
    intro x
    have harg : List.argAux (fun p q => key p < key q) (some x) b =
        some (if key b < key x then b else x) := by
      by_cases hb : key b < key x <;> simp [List.argAux, hb]
    simp only [List.foldl_cons, harg, chooseMinBy]
    exact ih _

/-- The chosen block is one of the candidates. -/
theorem chooseMinBy_mem {α : Type} (key : α → Nat) (x : α) (l : List α) :
    chooseMinBy key x l ∈ x :: l :=
  List.argmin_mem (f := key) (by rw [argmin_eq_chooseMinBy]; rfl)

/-- Membership in `potentialLoops`, spelled out. -/
theorem potentialLoops_mem_iff (body : List Stmt) (k it : Nat) :
    (k, it) ∈ potentialLoops body ↔
      1 ≤ k ∧ k < min body.length maxLoopLen ∧
      isEquivalentTo (body.getD 0 Stmt.nop) (body.getD k Stmt.nop) = true ∧
      it = identifyLoopIterationCount body 0 k ∧ 1 < it := by
  simp only [potentialLoops, List.mem_filterMap, List.mem_range'_1]
  constructor
  · rintro ⟨a, ⟨ha1, ha2⟩, hf⟩
    by_cases he : isEquivalentTo (body.getD 0 Stmt.nop) (body.getD a Stmt.nop)
    · rw [if_pos he] at hf
      by_cases hit : 1 < identifyLoopIterationCount body 0 a
      · rw [if_pos hit] at hf
        obtain ⟨rfl, rfl⟩ := Prod.mk.injEq .. ▸ Option.some.inj hf
        exact ⟨ha1, by omega, he, rfl, hit⟩
      · rw [if_neg hit] at hf
        exact absurd hf (by simp)
    · rw [if_neg he] at hf
      exact absurd hf (by simp)
  · rintro ⟨h1, h2, h3, rfl, h5⟩
    exact ⟨k, ⟨h1, by omega⟩, by rw [if_pos h3, if_pos h5]⟩

/-- Convenient bounds for the candidates: body length at least one,
iteration count at least two. -/
theorem potentialLoops_mem_bounds (body : List Stmt) (p : Nat × Nat)
    (h : p ∈ potentialLoops body) :
    1 ≤ p.1 ∧ p.1 < body.length ∧ 1 < p.2 := by
  have := (potentialLoops_mem_iff body p.1 p.2).mp (by simpa using h)
  have hlen : p.1 < min body.length maxLoopLen := this.2.1
  exact ⟨this.1, by omega, this.2.2.2.2⟩

/-- `LoopDetector.Transformer.visit_StatementSequence` on a statement
list.  At each position: if no candidate exists, move right one step;
otherwise build a `LoopBlock(iterations, body[0:k])` for every candidate
`(k, iterations)`, pick the one of minimal `length_in_bytes`
(first-minimal on ties), emit it in place of the scanned
`iterations * k` statements, and continue after it. -/
def loopDetect : List Stmt → List Stmt
  | [] => []
  | s :: rest =>
    match hc : potentialLoops (s :: rest) with
    | [] => s :: loopDetect rest
    | c :: cs =>
      Stmt.loopBlock
          (chooseMinBy (fun p =>
            (Stmt.loopBlock p.2 ((s :: rest).take p.1)).length_in_bytes) c cs).2
          ((s :: rest).take (chooseMinBy (fun p =>
            (Stmt.loopBlock p.2 ((s :: rest).take p.1)).length_in_bytes) c cs).1) ::
        loopDetect ((s :: rest).drop
          ((chooseMinBy (fun p =>
              (Stmt.loopBlock p.2 ((s :: rest).take p.1)).length_in_bytes) c cs).2 *
            ((s :: rest).take (chooseMinBy (fun p =>
              (Stmt.loopBlock p.2 ((s :: rest).take p.1)).length_in_bytes) c cs).1).length))
termination_by l => l.length
decreasing_by
  · simp only [List.length_cons]
    omega
  · have hmem := chooseMinBy_mem (fun p : Nat × Nat =>
      (Stmt.loopBlock p.2 ((s :: rest).take p.1)).length_in_bytes) c cs
    rw [← hc] at hmem
    obtain ⟨hb1, hb2, hb3⟩ := potentialLoops_mem_bounds (s :: rest) _ hmem
    simp only [List.length_drop, List.length_take, List.length_cons] at hb2 ⊢
    exact Nat.sub_lt (by omega) (Nat.mul_pos (by omega) (by omega))

/-- Step lemma: when the detector finds no candidate at the current
position it keeps the statement and moves one step right. -/
theorem loopDetect_cons_of_no_loops (s : Stmt) (rest : List Stmt)
    (h : potentialLoops (s :: rest) = []) :
    loopDetect (s :: rest) = s :: loopDetect rest := by
  simp only [loopDetect]
  split
  · rfl
  · rename_i c cs heq
    rw [h] at heq
    exact absurd heq (by simp)

/-- A sequence of sixteen statements with period eight: eight pairwise
non-equivalent `set_gray` commands repeated twice. -/
def c5seq : List Stmt :=
  [Stmt.setGray 1 0, Stmt.setGray 2 0, Stmt.setGray 3 0, Stmt.setGray 4 0,
   Stmt.setGray 5 0, Stmt.setGray 6 0, Stmt.setGray 7 0, Stmt.setGray 8 0,
   Stmt.setGray 1 0, Stmt.setGray 2 0, Stmt.setGray 3 0, Stmt.setGray 4 0,
   Stmt.setGray 5 0, Stmt.setGray 6 0, Stmt.setGray 7 0, Stmt.setGray 8 0]

/-- Encoding helper: one-byte varuints. -/
theorem to_varuint_small (v : Nat) (h : v < 128) : to_varuint v = [v] := by
  rw [to_varuint, if_pos h]

/-- C5 counterexample: on `c5seq` a loop body of length `k = 8` exists
(the statement at index 8 is equivalent to the one at index 0, and the
code's own iteration counter reports two iterations, so the claimed
window `1 ≤ k ≤ 8` would replace the sixteen statements by a 27-byte
`LoopBlock`, well below the 48 encoded bytes of the sequence), yet the
detector leaves the sequence completely unchanged: its scan
`range(index + 1, index + max_loop_len)` stops at `k = 7`. -/
theorem C5_counterexample_period_eight :
    isEquivalentTo (c5seq.getD 0 Stmt.nop) (c5seq.getD 8 Stmt.nop) = true ∧
    identifyLoopIterationCount c5seq 0 8 = 2 ∧
    (Stmt.loopBlock 2 (c5seq.take 8)).length_in_bytes = 27 ∧
    seq_length_in_bytes c5seq = 48 ∧
    loopDetect c5seq = c5seq := by
  refine ⟨by decide, ?_, ?_, ?_, ?_⟩
  · simp [identifyLoopIterationCount, identifyAux, c5seq, isEquivalentTo]
  · simp [c5seq, Stmt.length_in_bytes, seq_length_in_bytes, to_varuint_small]
  · simp [c5seq, Stmt.length_in_bytes, seq_length_in_bytes, to_varuint_small]
  · rw [c5seq]
    repeat rw [loopDetect_cons_of_no_loops _ _ (by decide)]
    simp [loopDetect]

/-- The first components of a keyed `filterMap` form a sublist of the
inputs. -/
theorem filterMap_fst_sublist {α : Type} (g : Nat → Option (Nat × α))
    (hg : ∀ k p, g k = some p → p.1 = k) :
    ∀ l : List Nat, ((l.filterMap g).map Prod.fst).Sublist l := by
  intro l
  induction l with
  | nil => simp
  | cons k rest ih =>
    cases hk : g k with
    | none =>
      rw [List.filterMap_cons_none hk]
      exact ih.cons k
    | some p =>
      rw [List.filterMap_cons_some hk]
      rw [List.map_cons, hg k p hk]
      exact ih.cons₂ k

/-- Use the `DecidableEq`-derived `BEq` on candidate pairs, so that
`List.indexOf` in the statement below agrees with the instance used by
the Mathlib `argmin` lemmas. -/
instance : BEq (Nat × Nat) := instBEqOfDecidableEq

/-- C5 (amended): the loop detector considers candidate loop bodies of
every length `1 ≤ k ≤ 7` only (not 8: the scan window
`range(index+1, index + max_loop_len)` with `max_loop_len = 8` excludes
`k = max_loop_len`), detecting a candidate whenever the statement at
`i + k` is semantically equivalent to the one at `i` and the iteration
count exceeds one; it caps the iteration count at 255; the candidates
are produced in strictly increasing order of body length; and among the
candidate blocks Python's `min` keeps the member with the smallest
`length_in_bytes`, breaking ties by the earliest candidate — i.e. the
smallest body length. -/
theorem C5_loop_detector_window_and_choice :
    (∀ (body : List Stmt) (k it : Nat),
      (k, it) ∈ potentialLoops body ↔
        1 ≤ k ∧ k ≤ 7 ∧ k < body.length ∧
        isEquivalentTo (body.getD 0 Stmt.nop) (body.getD k Stmt.nop) = true ∧
        it = identifyLoopIterationCount body 0 k ∧ 1 < it) ∧
    (∀ (statements : List Stmt) (start_index loop_body_length : Nat),
      identifyLoopIterationCount statements start_index loop_body_length ≤ 255) ∧
    (∀ body : List Stmt,
      ((potentialLoops body).map Prod.fst).Pairwise (· < ·)) ∧
    (∀ (key : Nat × Nat → Nat) (c : Nat × Nat) (cs : List (Nat × Nat)),
      chooseMinBy key c cs ∈ c :: cs ∧
      (∀ a ∈ c :: cs, key (chooseMinBy key c cs) ≤ key a) ∧
      (∀ a ∈ c :: cs, key a ≤ key (chooseMinBy key c cs) →
        (c :: cs).indexOf (chooseMinBy key c cs) ≤ (c :: cs).indexOf a)) := by
  refine ⟨?_, ?_, ?_, ?_⟩
  · intro body k it
    rw [potentialLoops_mem_iff]
    constructor
    · rintro ⟨h1, h2, h3, h4, h5⟩
      simp only [maxLoopLen] at h2
      exact ⟨h1, by omega, by omega, h3, h4, h5⟩
    · rintro ⟨h1, h2, h3, h4, h5, h6⟩
      refine ⟨h1, ?_, h4, h5, h6⟩
      simp only [maxLoopLen]
      omega
  · intro statements start_index loop_body_length
    exact Nat.min_le_right _ _
  · intro body
    refine List.Pairwise.sublist (filterMap_fst_sublist _ ?_ _)
      (List.pairwise_lt_range' 1 _)
    intro k p h
    split_ifs at h <;>
      first
      | rw [← Option.some.inj h]
      | exact absurd h (by simp)
  · intro key c cs
    have hm : chooseMinBy key c cs ∈ (c :: cs).argmin key := by
      rw [Option.mem_def, argmin_eq_chooseMinBy]
    have hspec := List.mem_argmin_iff.mp hm
    exact ⟨hspec.1, hspec.2.1, hspec.2.2⟩

/-- Witness for C5: the minimality part of the choice, applied to a
concrete candidate list. -/
theorem C5_witness :
    (((2, 5) : Nat × Nat) ∈ ((2, 5) : Nat × Nat) :: [((1, 3) : Nat × Nat)]) ∧
    Prod.fst (chooseMinBy Prod.fst ((2, 5) : Nat × Nat) [((1, 3) : Nat × Nat)]) ≤
      Prod.fst ((2, 5) : Nat × Nat) :=
  ⟨List.mem_cons_self _ _,
    (C5_loop_detector_window_and_choice.2.2.2 Prod.fst (2, 5) [(1, 3)]).2.1
      (2, 5) (List.mem_cons_self _ _)⟩

/-! ## Composite optimiser driver

`CompositeASTOptimiser.optimise_ast` runs each child pass in order and
repeats while any pass reports a change; `create_optimiser_for_level`
wires the passes (level `<= 0`: `NullASTOptimiser`; level `>= 1`:
`CommandMerger` then `ColorCommandShortener`; level `>= 2`: additionally
`LoopDetector`).  A pass's report is `transformer.changed`, which only
`NodeTransformer.generic_visit` sets — the merger's and the detector's
`visit_StatementSequence` mutate the list directly and never set it, so
those two passes always report `False`; only the shortener reports
truthfully. -/

mutual

/-- Whether the shortener's visitor returns a *different* node for this
statement (that is exactly when `generic_visit` marks the transformer as
changed).  The gray rewrites never fire (`unsignedByteEqInt` is always
`false`, see C4). -/
def shortenChangedStmt : Stmt → Bool
  | .setColor c _ => c.is_white || c.is_black || c.is_gray
  | .fadeToColor c _ => c.is_white || c.is_black || c.is_gray
  | .setGray v _ => unsignedByteEqInt v 255 || unsignedByteEqInt v 0
  | .fadeToGray v _ => unsignedByteEqInt v 255 || unsignedByteEqInt v 0
  | .loopBlock _ body => shortenChangedSeq body
  | _ => false

/-- Change flag of the shortener over a statement list. -/
def shortenChangedSeq : List Stmt → Bool
  | [] => false
  | s :: rest => shortenChangedStmt s || shortenChangedSeq rest

end

/-- One iteration of the composite driver's `while` body at the given
level (only called with `level >= 1`): run `CommandMerger`, then
`ColorCommandShortener`, then (at level `>= 2`) `LoopDetector`, each on
the result of the previous one, and collect `any_modified`.  `none`
propagates the merger's `ValueError`. -/
def runPasses (level : Int) (l : List Stmt) : Option (List Stmt × Bool) :=
  match mergePass l with
  | none => none
  | some l1 =>
    if level ≥ 2 then
      some (loopDetect (shorten_seq l1), false || shortenChangedSeq l1 || false)
    else
      some (shorten_seq l1, false || shortenChangedSeq l1)

/-- The composite driver's `while any_modified` loop, fuel-bounded
(`none` = the fuel ran out or a pass raised). -/
def compositeLoop (level : Int) : Nat → List Stmt → Option (List Stmt)
  | 0, _ => none
  | fuel + 1, l =>
    match runPasses level l with
    | none => none
    | some (l', changed) =>
      if changed then compositeLoop level fuel l' else some l'

/-- `create_optimiser_for_level` followed by `optimise_ast`: level
`<= 0` yields the `NullASTOptimiser`, which returns the AST untouched;
otherwise the composite driver runs the level's passes to a fixed
point. -/
def optimiseForLevel (level : Int) (fuel : Nat) (l : List Stmt) :
    Option (List Stmt) :=
  if level ≤ 0 then some l else compositeLoop level fuel l

/-! ## Interpreter

`Executor` in `src/pyledctrl/executor.py` (the only revision carrying
it).  The mutable `ExecutorState` is `(timestamp, color, is_fade)`;
`execute` yields a copy of the state at every `yield` point and catches
`StopExecution` (raised by `END`).  Timestamps are rationals: the source
only ever adds integer frame counts divided by the exact decimal
`Duration.FPS = 50`.  A statement class without an `_execute_...`
handler (`Comment`, `ResetTimerCommand`, the channel commands,
`JumpCommand`) makes `_execute` raise `RuntimeError`, modelled as
`none`; the fuel argument models the infinite iteration of
`LoopBlock(iterations=0)` (`itertools.count()`), and runs out only
there or on deep recursion. -/

/-- Executor state (`ExecutorState`): timestamp in seconds, current
color, fade flag. -/
structure ExecState where
  timestamp : ℚ
  color : RGBColor
  is_fade : Bool
deriving DecidableEq, Repr

/-- `Executor._fade_to`: when not already fading, first yield the
current state (fade-start marker) and set `is_fade`; then advance the
clock by the duration, set the target color and yield the end-of-fade
state. -/
def fadeTo (st : ExecState) (color : RGBColor) (d : Nat) :
    List ExecState × ExecState × Bool :=
  let pre : List ExecState := if st.is_fade then [] else [st]
  let fin : ExecState := ⟨st.timestamp + (d : ℚ) / 50, color, true⟩
  (pre ++ [fin], fin, false)

mutual

/-- Execution of a single statement: returns the yielded states, the
final executor state and whether `StopExecution` was raised. -/
def execStmt : Nat → Stmt → ExecState → Option (List ExecState × ExecState × Bool)
  | 0, _, _ => none
  | fuel + 1, stmt, st =>
    match stmt with
    | .endCmd => some ([], st, true)
    | .nop => some ([], st, false)
    | .setPyro _ _ => some ([], st, false)
    | .setPyroAll _ => some ([], st, false)
    | .sleep d =>
      some ([⟨st.timestamp + (d : ℚ) / 50, st.color, false⟩],
        ⟨st.timestamp + (d : ℚ) / 50, st.color, false⟩, false)
    | .waitUntil t =>
      some ([⟨max st.timestamp (t : ℚ), st.color, false⟩],
        ⟨max st.timestamp (t : ℚ), st.color, false⟩, false)
    | .setColor c d =>
      some ([⟨st.timestamp, c, false⟩],
        ⟨st.timestamp + (d : ℚ) / 50, c, false⟩, false)
    | .setGray v d =>
      some ([⟨st.timestamp, ⟨v, v, v⟩, false⟩],
        ⟨st.timestamp + (d : ℚ) / 50, ⟨v, v, v⟩, false⟩, false)
    | .setBlack d =>
      some ([⟨st.timestamp, ⟨0, 0, 0⟩, false⟩],
        ⟨st.timestamp + (d : ℚ) / 50, ⟨0, 0, 0⟩, false⟩, false)
    | .setWhite d =>
      some ([⟨st.timestamp, ⟨255, 255, 255⟩, false⟩],
        ⟨st.timestamp + (d : ℚ) / 50, ⟨255, 255, 255⟩, false⟩, false)
    | .fadeToColor c d => some (fadeTo st c d)
    | .fadeToGray v d => some (fadeTo st ⟨v, v, v⟩ d)
    | .fadeToBlack d => some (fadeTo st ⟨0, 0, 0⟩ d)
    | .fadeToWhite d => some (fadeTo st ⟨255, 255, 255⟩ d)
    | .loopBlock n body =>
      if n > 0 then execTimes fuel n body st else execForever fuel body st
    | .resetTimer => none
    | .setColorFromChannels _ _ _ _ => none
    | .fadeToColorFromChannels _ _ _ _ => none
    | .jump _ => none
    | .comment _ => none

/-- Execution of a statement sequence; `StopExecution` short-circuits. -/
def execSeq : Nat → List Stmt → ExecState → Option (List ExecState × ExecState × Bool)
  | 0, _, _ => none
  | _ + 1, [], st => some ([], st, false)
  | fuel + 1, s :: rest, st =>
    match execStmt fuel s st with
    | none => none
    | some (e, st', stop) =>
      if stop then some (e, st', true)
      else
        match execSeq fuel rest st' with
        | none => none
        | some (e2, st2, stop2) => some (e ++ e2, st2, stop2)

/-- `range(n)` iteration of a loop body. -/
def execTimes : Nat → Nat → List Stmt → ExecState → Option (List ExecState × ExecState × Bool)
  | 0, _, _, _ => none
  | _ + 1, 0, _, st => some ([], st, false)
  | fuel + 1, k + 1, body, st =>
    match execSeq fuel body st with
    | none => none
    | some (e, st', stop) =>
      if stop then some (e, st', true)
      else
        match execTimes fuel k body st' with
        | none => none
        | some (e2, st2, stop2) => some (e ++ e2, st2, stop2)

/-- `itertools.count()` iteration of a zero-iterations loop body: only
fuel exhaustion or `StopExecution` can end it. -/
def execForever : Nat → List Stmt → ExecState → Option (List ExecState × ExecState × Bool)
  | 0, _, _ => none
  | fuel + 1, body, st =>
    match execSeq fuel body st with
    | none => none
    | some (e, st', stop) =>
      if stop then some (e, st', true)
      else
        match execForever fuel body st' with
        | none => none
        | some (e2, st2, stop2) => some (e ++ e2, st2, stop2)

end

/-- `Executor().execute(node)` on a program: run from the initial state
(timestamp 0, black, no fade) and collect the yielded state copies;
`StopExecution` is caught, so the states seen so far are kept. -/
def executeProgram (fuel : Nat) (program : List Stmt) : Option (List ExecState) :=
  match execSeq fuel program ⟨0, ⟨0, 0, 0⟩, false⟩ with
  | none => none
  | some (events, _, _) => some events

/-- Evaluation helper: the merger on the two-command run used in the C2
counterexample. -/
theorem mergePass_c2_example :
    mergePass [Stmt.setColor ⟨1, 2, 3⟩ 1, Stmt.setColor ⟨1, 2, 3⟩ 1] =
      some [Stmt.setColor ⟨1, 2, 3⟩ 2] := by
  have hscan : scanColorRun ⟨1, 2, 3⟩ [Stmt.setColor ⟨1, 2, 3⟩ 1,
      Stmt.setColor ⟨1, 2, 3⟩ 1] = (2, 2) := by
    norm_num [scanColorRun, colorRunMember, runDuration]
  simp only [mergePass, hscan]
  norm_num [mergePass]

/-- C2 counterexample: at optimisation level 1 the optimiser merges the
run `set_color((1,2,3), 1); set_color((1,2,3), 1)` into a single
`set_color((1,2,3), 2)`; the interpreter emits two states for the
original program but only one for the optimised program, so the two
state sequences are not equal. -/
theorem C2_counterexample_merge_drops_state :
    optimiseForLevel 1 2 [Stmt.setColor ⟨1, 2, 3⟩ 1, Stmt.setColor ⟨1, 2, 3⟩ 1] =
      some [Stmt.setColor ⟨1, 2, 3⟩ 2] ∧
    executeProgram 5 [Stmt.setColor ⟨1, 2, 3⟩ 1, Stmt.setColor ⟨1, 2, 3⟩ 1] =
      some [⟨0, ⟨1, 2, 3⟩, false⟩, ⟨1/50, ⟨1, 2, 3⟩, false⟩] ∧
    executeProgram 5 [Stmt.setColor ⟨1, 2, 3⟩ 2] =
      some [⟨0, ⟨1, 2, 3⟩, false⟩] ∧
    ([⟨0, ⟨1, 2, 3⟩, false⟩, ⟨1/50, ⟨1, 2, 3⟩, false⟩] : List ExecState) ≠
      [⟨0, ⟨1, 2, 3⟩, false⟩] := by
  refine ⟨?_, ?_, ?_, by simp⟩
  · simp [optimiseForLevel, compositeLoop, runPasses, mergePass_c2_example,
      shorten_seq, shortenStmt, shortenChangedSeq, shortenChangedStmt,
      RGBColor.is_white, RGBColor.is_black, RGBColor.is_gray, unsignedByteEqInt]
  · simp [executeProgram, execSeq, execStmt]
  · simp [executeProgram, execSeq, execStmt]

/-- C2 (amended): at optimisation level `<= 0` the optimiser is the
`NullASTOptimiser` and returns the AST unchanged, so the interpreter
yields exactly the same sequence of states; at level `>= 1` the merged
program can yield strictly fewer states (see
`C2_counterexample_merge_drops_state`). -/
theorem C2_level_zero_preserves_output (level : Int) (h : level ≤ 0)
    (fuel efuel : Nat) (ast : List Stmt) :
    optimiseForLevel level fuel ast = some ast ∧
    ∀ res, optimiseForLevel level fuel ast = some res →
      executeProgram efuel res = executeProgram efuel ast := by
  constructor
  · simp [optimiseForLevel, if_pos h]
  · intro res hres
    simp only [optimiseForLevel, if_pos h, Option.some.injEq] at hres
    rw [hres]

/-- Witness for C2 at level 0 on the program `[nop]`. -/
theorem C2_witness :
    ((0 : Int) ≤ 0) ∧ optimiseForLevel 0 1 [Stmt.nop] = some [Stmt.nop] :=
  ⟨by norm_num, (C2_level_zero_preserves_output 0 (by norm_num) 1 1 [Stmt.nop]).1⟩

/-- C8 counterexample: executing `sleep(25)` from the initial state
emits exactly one state, and that state carries the timestamp
`25 / 50 = 0.5 s` — the clock value *after* the advance — not the
claimed pre-command clock value `0`. -/
theorem C8_counterexample_sleep_timestamp :
    executeProgram 2 [Stmt.sleep 25] =
      some [⟨1/2, ⟨0, 0, 0⟩, false⟩] ∧ ((1 : ℚ)/2 ≠ 0) := by
  constructor
  · simp [executeProgram, execSeq, execStmt]
    norm_num
  · norm_num

/-- C8 (amended): `_execute_SleepCommand` first advances the clock by
the sleep duration and only then sets `is_fade = False` and emits the
state, so the emitted state carries the post-advance timestamp. -/
theorem C8_sleep_advances_then_emits (fuel : Nat) (d : Nat) (st : ExecState) :
    execStmt (fuel + 1) (Stmt.sleep d) st =
      some ([⟨st.timestamp + (d : ℚ) / 50, st.color, false⟩],
        ⟨st.timestamp + (d : ℚ) / 50, st.color, false⟩, false) := rfl

/-! ## Compilation plan

`Plan.execute` in `src/src/pyledctrl/compiler/plan.py`.  The loop walks
`self._steps` with `step_index`; a step runs when `force` is set, the
step is marked as an output step, or its `should_run()` returns true.
Only after running a step does the loop recompute `num_steps` (a `done`
callback may have appended new steps at the end of the plan) and advance
`step_index` past the step just run; when the step does not run, no
branch of the loop body touches `step_index`, so the `while` loop spins
on the same step forever. -/

/-- A compilation stage, reduced to what `Plan.execute` inspects: the
value of `should_run()`, whether the plan marked it as an output step,
and the steps its `done` callbacks append to the plan when it runs. -/
inductive Stage where
  | mk (shouldRun : Bool) (isOutput : Bool) (appends : List Stage) : Stage

/-- The stage's `should_run()` result. -/
def Stage.shouldRun : Stage → Bool
  | .mk s _ _ => s

/-- Whether the stage is in the plan's `_output_steps`. -/
def Stage.isOutput : Stage → Bool
  | .mk _ o _ => o

/-- Steps appended by the stage's `done` callbacks. -/
def Stage.appends : Stage → List Stage
  | .mk _ _ a => a

/-- A placeholder stage for the (always in-bounds) list accesses. -/
def dummyStage : Stage :=
  .mk true false []

/-- The `while step_index < num_steps` loop of `Plan.execute`, fuel
bounded (`none` = the loop was still running when the fuel ran out).
When the step runs, its callback-appended steps land at the end of the
plan and `step_index` becomes the index after the step just run (each
stage object occurs once in the plan, so `self._steps.index(step) + 1`
is `step_index + 1`); when it does not run, nothing changes. -/
def planExecLoop (force : Bool) (steps : List Stage) (step_index : Nat) :
    Nat → Option (List Stage)
  | 0 => none
  | fuel + 1 =>
    if step_index < steps.length then
      let step := steps.getD step_index dummyStage
      if force || step.isOutput || step.shouldRun then
        planExecLoop force (steps ++ step.appends) (step_index + 1) fuel
      else
        planExecLoop force steps step_index fuel
    else
      some steps

/-- C10: with `force = False`, a plan containing a stage that is not an
output step and whose `should_run()` is false never advances past that
stage: the loop never reaches the end of the step list, for any amount
of fuel — `Plan.execute` does not terminate.  (The invariant is stated
for any starting index at or before the blocked stage; `Plan.execute`
starts at index 0.) -/
theorem C10_plan_never_skips_stages (i : Nat) :
    ∀ (steps : List Stage) (step_index fuel : Nat),
      step_index ≤ i → i < steps.length →
      (steps.getD i dummyStage).isOutput = false →
      (steps.getD i dummyStage).shouldRun = false →
      planExecLoop false steps step_index fuel = none := by
  intro steps step_index fuel
  induction fuel generalizing steps step_index with
  | zero => intro _ _ _ _; rfl
  | succ fuel ih =>
    intro hle hlen hout hrun
    have hidx : step_index < steps.length := by omega
    rw [planExecLoop, if_pos hidx]
    by_cases hguard : false || (steps.getD step_index dummyStage).isOutput ||
        (steps.getD step_index dummyStage).shouldRun
    · rw [if_pos hguard]
      have hne : step_index ≠ i := by
        intro heq
        rw [heq, hout, hrun] at hguard
        simp at hguard
      have hgetD : (steps ++ (steps.getD step_index dummyStage).appends).getD i
          dummyStage = steps.getD i dummyStage := by
        rw [List.getD_append _ _ _ _ hlen]
      exact ih (steps ++ _) (step_index + 1) (by omega)
        (by rw [List.length_append]; omega) (by rw [hgetD]; exact hout)
        (by rw [hgetD]; exact hrun)
    · rw [if_neg hguard]
      exact ih steps step_index hle hlen hout hrun

/-- Witness for C10: a one-stage plan whose stage must not run loops
forever (here: for fuel 5). -/
theorem C10_witness :
    0 < [Stage.mk false false []].length ∧
    planExecLoop false [Stage.mk false false []] 0 5 = none :=
  ⟨by simp, C10_plan_never_skips_stages 0 [Stage.mk false false []] 0 5
    (Nat.le_refl 0) (by simp) rfl rfl⟩
